import Mathlib

/-!
Shallow embedding of the CI cost-estimation and optimization engine
(`estimateWorkflowDuration`, `calculateMatrixSize`, `normalizeTriggers`,
`countCronFieldSlots`, `estimateScheduleRunsPerMonth`,
`estimateWorkflowRunsPerMonth`, `calculateMonthlyCosts`,
`analyzeOptimizations`) together with theorems checking the specification
claims about it.  JavaScript numbers are modelled as exact rationals (`ℚ`);
`Math.ceil`, `Math.min` and `Math.max` become `Int.ceil`, `min` and `max`.
JavaScript strings are modelled as `String` / `List Char`.
-/

namespace QaArchitect

/-- Whitespace test used to model JavaScript `String.prototype.trim` and
splitting on the regular expression `\s+`. -/
def isWsChar (c : Char) : Bool :=
  c == ' ' || c == '\t' || c == '\n' || c == '\r'

/-- Drop leading whitespace characters. -/
def dropLeadingWs : List Char → List Char
  | [] => []
  | c :: cs => if isWsChar c then dropLeadingWs cs else c :: cs

/-- Model of JavaScript `s.trim()` on the character list of `s`. -/
def trimWs (cs : List Char) : List Char :=
  dropLeadingWs ((dropLeadingWs cs.reverse).reverse)

/-- Maximal runs of non-whitespace characters, accumulator-style. -/
def wordsAux : List Char → List Char → List (List Char)
  | acc, [] => if acc.isEmpty then [] else [acc.reverse]
  | acc, c :: cs =>
    if isWsChar c then
      if acc.isEmpty then wordsAux [] cs else acc.reverse :: wordsAux [] cs
    else wordsAux (c :: acc) cs

/-- Model of JavaScript `s.split(/\s+/)` applied to an already trimmed string:
for a nonempty trimmed string this is the list of maximal non-whitespace runs,
and JavaScript returns `[""]` on the empty string. -/
def jsSplitWs (cs : List Char) : List (List Char) :=
  if cs.isEmpty then [[]] else wordsAux [] cs

/-- Model of JavaScript `field.includes(c)` for a single character. -/
def hasChar (c : Char) (cs : List Char) : Bool :=
  cs.any (· == c)

/-- Accumulator worker for `splitOnChar`. -/
def splitOnCharAux (sep : Char) : List Char → List Char → List (List Char)
  | acc, [] => [acc.reverse]
  | acc, c :: cs =>
    if c == sep then acc.reverse :: splitOnCharAux sep [] cs
    else splitOnCharAux sep (c :: acc) cs

/-- Model of JavaScript `s.split(sep)` for a one-character separator: the
result is always nonempty and empty pieces are kept. -/
def splitOnChar (sep : Char) (cs : List Char) : List (List Char) :=
  splitOnCharAux sep [] cs

/-- Check that `pat` occurs at the head of `cs`. -/
def seqStartsWith : List Char → List Char → Bool
  | [], _ => true
  | _ :: _, [] => false
  | p :: ps, c :: cs => p == c && seqStartsWith ps cs

/-- Check that `pat` occurs contiguously somewhere in `cs`. -/
def seqContains (cs pat : List Char) : Bool :=
  match cs with
  | [] => pat.isEmpty
  | _ :: tail => seqStartsWith pat cs || seqContains tail pat

/-- Model of JavaScript `s.includes(pat)`. -/
def strIncludes (s pat : String) : Bool :=
  seqContains s.toList pat.toList

/-- Split a longest prefix of decimal digits off a character list. -/
def takeDigits : List Char → List Char × List Char
  | [] => ([], [])
  | c :: cs =>
    if c.isDigit then
      let p := takeDigits cs
      (c :: p.1, p.2)
    else ([], c :: cs)

/-- Value of a most-significant-first digit list. -/
def digitsToNat (ds : List Char) : ℕ :=
  ds.foldl (fun a c => 10 * a + (c.toNat - '0'.toNat)) 0

/-- Model of JavaScript `Number(string)` restricted to optionally signed
decimal numerals (integer part, optional fraction, optional exponent), the
forms cron fields can sensibly contain.  `none` models `NaN`; since the
callers immediately test `!Number.isFinite(x)`, non-finite results behave
exactly like `NaN` there.  The empty or all-whitespace string is `0`, as in
JavaScript. -/
def jsNumberChars (cs0 : List Char) : Option ℚ :=
  let cs := trimWs cs0
  if cs.isEmpty then some 0
  else
    let sgn : ℚ := match cs with | '-' :: _ => -1 | _ => 1
    let cs1 := match cs with | '+' :: r => r | '-' :: r => r | r => r
    let ip := takeDigits cs1
    let fr := match ip.2 with | '.' :: r => takeDigits r | r => ([], r)
    if ip.1.isEmpty && fr.1.isEmpty then none
    else
      let mant : ℚ := (digitsToNat ip.1 : ℚ) + (digitsToNat fr.1 : ℚ) / (10 : ℚ) ^ fr.1.length
      match fr.2 with
      | [] => some (sgn * mant)
      | e :: r =>
        if e == 'e' || e == 'E' then
          let esgn : ℤ := match r with | '-' :: _ => -1 | _ => 1
          let r1 := match r with | '+' :: r2 => r2 | '-' :: r2 => r2 | r2 => r2
          let ed := takeDigits r1
          if ed.1.isEmpty || !ed.2.isEmpty then none
          else some (sgn * mant * (10 : ℚ) ^ (esgn * (digitsToNat ed.1 : ℤ)))
        else none

/-- Tail of `countCronFieldSlots`: the plain-range and single-value cases.
JavaScript reaches this code both when the field has no `/` and, by falling
out of the `field.includes('/')` block, when the step is a positive number
but the base is neither empty, `*`, nor a range. -/
def cronRangeOrSingle (field : List Char) : ℚ :=
  if hasChar '-' field then
    let parts := splitOnChar '-' field
    match jsNumberChars (parts.headD []), jsNumberChars (parts.getD 1 []) with
    | some lo, some hi => if hi < lo then 1 else max 1 (hi - lo + 1)
    | _, _ => 1
  else 1

/-- Fuelled embedding of `countCronFieldSlots(field, maxSlots)`.  The only
recursion in the source is on the parts of a comma split, each of which is
strictly shorter than the whole field (and in fact comma-free), so
`field.length + 1` fuel always suffices and the fuel-exhaustion value is
never reached. -/
def countCronFieldSlotsAux : ℕ → List Char → ℚ → ℚ
  | 0, _, _ => 1
  | fuel + 1, field, maxSlots =>
    if field.isEmpty || field == ['*'] then 1
    else if hasChar ',' field then
      ((splitOnChar ',' field).map trimWs).foldl
        (fun sum part => sum + countCronFieldSlotsAux fuel part maxSlots) 0
    else if hasChar '/' field then
      let parts := splitOnChar '/' field
      let base := parts.headD []
      let stepRaw := parts.getD 1 []
      match jsNumberChars stepRaw with
      | none => 1
      | some step =>
        if step ≤ 0 then 1
        else if base.isEmpty || base == ['*'] then
          max 1 ((⌈maxSlots / step⌉ : ℤ) : ℚ)
        else if hasChar '-' base then
          let rparts := splitOnChar '-' base
          match jsNumberChars (rparts.headD []), jsNumberChars (rparts.getD 1 []) with
          | some lo, some hi =>
            if hi < lo then 1 else max 1 ((⌈(hi - lo + 1) / step⌉ : ℤ) : ℚ)
          | _, _ => 1
        else cronRangeOrSingle field
    else cronRangeOrSingle field

/-- Embedding of `countCronFieldSlots` from the analyzer. -/
def countCronFieldSlots (field : List Char) (maxSlots : ℚ) : ℚ :=
  countCronFieldSlotsAux (field.length + 1) field maxSlots

/-- Character list the analyzer derives from one schedule entry: a `some s`
entry models `{cron: s}` with a string `cron` field (which is trimmed), and
`none` models an entry without a string `cron`, for which the source uses
`''`. -/
def cronCharsOf : Option String → List Char
  | some s => trimWs s.toList
  | none => []

/-- Contribution of a single schedule entry inside the `reduce` of
`estimateScheduleRunsPerMonth`. -/
def scheduleEntryContribution (entry : Option String) : ℚ :=
  let parts := jsSplitWs (cronCharsOf entry)
  if parts.length ≠ 5 then 4
  else
    let minuteField := parts.getD 0 []
    let hourField := parts.getD 1 []
    let dayOfMonthField := parts.getD 2 []
    let monthField := parts.getD 3 []
    let dayOfWeekField := parts.getD 4 []
    let minuteSlots := countCronFieldSlots minuteField 60
    let hourSlots := countCronFieldSlots hourField 24
    let timeSlots := max 1 (minuteSlots * hourSlots)
    let baseRuns : ℚ :=
      if dayOfWeekField ≠ ['*'] then 4
      else if dayOfMonthField ≠ ['*'] then 1
      else if monthField ≠ ['*'] then 1
      else 30
    max 1 ((⌈baseRuns * timeSlots⌉ : ℤ) : ℚ)

/-- Configuration object attached to one trigger event.  Fields model the
properties the analyzer reads; an absent property is `none`.  A present but
empty pattern list is truthy in JavaScript, which `some []` captures. -/
structure EventCfg where
  tags : Option (List String) := none
  branches : Option (List String) := none
  branchesIgnore : Option (List String) := none
  paths : Option (List String) := none
  pathsIgnore : Option (List String) := none
  cron : Option String := none

/-- Value bound to one event name in a trigger mapping: `true`/`false`, YAML
`null`, a detail object, or an array of schedule entries. -/
inductive TriggerVal where
  | bool (b : Bool)
  | null
  | object (cfg : EventCfg)
  | array (entries : List (Option String))

/-- Shape of a workflow `on` declaration: absent, a single event name, a
list of event names, or a mapping from event names to configs. -/
inductive OnConfig where
  | absent
  | str (s : String)
  | list (l : List String)
  | map (m : List (String × TriggerVal))

/-- One matrix axis value: a sequence of values or a scalar. -/
inductive MatrixVal where
  | seq (vals : List String)
  | scalar (val : String)

/-- One step of a job. -/
structure Step where
  name : Option String := none
  run : Option String := none
  uses : Option String := none

/-- Strategy section of a job. -/
structure Strategy where
  matrix : Option (List (String × MatrixVal)) := none

/-- One job of a workflow. -/
structure Job where
  steps : Option (List Step) := none
  strategy : Option Strategy := none

/-- Parsed workflow definition: the `on` declaration (`onCfg`, since `on`
is reserved in Lean) and the `jobs` map (modelled as an association list in
object-key order). -/
structure Workflow where
  onCfg : OnConfig := .absent
  jobs : Option (List (String × Job)) := none

/-- Tuning options of the frequency estimator; `none` models an absent
property. -/
structure EstOptions where
  pullRequestFactor : Option ℚ := none
  manualRunsPerMonth : Option ℚ := none
  releaseRunsPerMonth : Option ℚ := none

/-- JavaScript truthiness of a trigger value. -/
def truthyVal : TriggerVal → Bool
  | .bool b => b
  | .null => false
  | .object _ => true
  | .array _ => true

/-- JavaScript truthiness of a whole `on` declaration (`undefined` and the
empty string are falsy; arrays and objects are truthy). -/
def truthyOn : OnConfig → Bool
  | .absent => false
  | .str s => !s.isEmpty
  | .list _ => true
  | .map _ => true

/-- Embedding of `normalizeTriggers(onConfig)`.  A string becomes a single
`event ↦ true` binding, a list of names maps each to `true`, and a mapping
is returned unchanged. -/
def normalizeTriggers : OnConfig → List (String × TriggerVal)
  | .absent => []
  | .str s => [(s, .bool true)]
  | .list l => l.map (fun eventName => (eventName, .bool true))
  | .map m => m

/-- Model of `Object.prototype.hasOwnProperty.call(triggers, event)`. -/
def triggersHas (triggers : List (String × TriggerVal)) (event : String) : Bool :=
  (List.lookup event triggers).isSome

/-- Embedding of the tag-only test on the push config: `typeof` admits
detail objects, arrays and `null`, but only a detail object can have a
nonempty `tags` array and no `branches`/`branches-ignore` property. -/
def pushIsTagOnly (triggers : List (String × TriggerVal)) : Bool :=
  match List.lookup "push" triggers with
  | some (.object cfg) =>
    (match cfg.tags with
     | some tags => decide (0 < tags.length)
     | none => false)
    && cfg.branches.isNone && cfg.branchesIgnore.isNone
  | _ => false

/-- Array coercion at the top of `estimateScheduleRunsPerMonth`: an array is
used as is, a truthy non-array value is wrapped in a singleton (a detail
object contributes its `cron` property, a `true` has no string `cron`), and
a falsy value gives the empty list. -/
def scheduleListOf : TriggerVal → List (Option String)
  | .array entries => entries
  | .bool true => [none]
  | .bool false => []
  | .null => []
  | .object cfg => [cfg.cron]

/-- Embedding of `estimateScheduleRunsPerMonth(scheduleConfig)`. -/
def estimateScheduleRunsPerMonth (scheduleConfig : TriggerVal) : ℚ :=
  let schedules := scheduleListOf scheduleConfig
  if schedules.isEmpty then 0
  else schedules.foldl (fun total entry => total + scheduleEntryContribution entry) 0

/-- Model of the JavaScript default pattern `options.x || DEFAULT`: an
absent property and the falsy value `0` both fall back to the default. -/
def getOrDefault (value : Option ℚ) (dflt : ℚ) : ℚ :=
  match value with
  | some v => if v = 0 then dflt else v
  | none => dflt

/-- Embedding of `estimateWorkflowRunsPerMonth(workflow, commitsPerDay,
options)`; the running sum is accumulated in the source order. -/
def estimateWorkflowRunsPerMonth (workflow : Workflow) (commitsPerDay : ℚ)
    (options : EstOptions) : ℚ :=
  let triggers := normalizeTriggers workflow.onCfg
  let commitsPerMonth : ℚ := ((⌈commitsPerDay * 30⌉ : ℤ) : ℚ)
  let pullRequestFactor := getOrDefault options.pullRequestFactor 0.8
  let manualRunsPerMonth := getOrDefault options.manualRunsPerMonth 1
  let releaseRunsPerMonth := getOrDefault options.releaseRunsPerMonth 1
  let hasPush := triggersHas triggers "push"
  let hasPullRequest := triggersHas triggers "pull_request"
  let hasSchedule := triggersHas triggers "schedule"
  let hasWorkflowDispatch := triggersHas triggers "workflow_dispatch"
  let hasRelease := triggersHas triggers "release"
  let hasCreate := triggersHas triggers "create"
  let tagOnly := pushIsTagOnly triggers
  let hasCommitPush := hasPush && !tagOnly
  let hasTagPush := hasPush && tagOnly
  let runs1 : ℚ := if hasCommitPush then commitsPerMonth else 0
  let runs2 : ℚ :=
    runs1 + (if hasPullRequest then ((⌈commitsPerMonth * pullRequestFactor⌉ : ℤ) : ℚ) else 0)
  let runs3 : ℚ :=
    runs2 +
      (if hasSchedule then
        estimateScheduleRunsPerMonth ((List.lookup "schedule" triggers).getD .null)
      else 0)
  let runs4 : ℚ := runs3 + (if hasTagPush || hasRelease || hasCreate then releaseRunsPerMonth else 0)
  let hasOnlyManualTrigger :=
    hasWorkflowDispatch && !hasCommitPush && !hasPullRequest && !hasSchedule &&
      !hasTagPush && !hasRelease && !hasCreate
  let runs5 : ℚ := runs4 + (if hasOnlyManualTrigger then manualRunsPerMonth else 0)
  let runs6 : ℚ := if runs5 = 0 then commitsPerMonth else runs5
  max 1 ((⌈runs6⌉ : ℤ) : ℚ)

/-- Per-step weight inside the duration loop: classification of the step
name, lower-cased, by substring, in source order; a step without a name (or
with a falsy empty name, which matches no keyword) counts 1. -/
def stepWeight (step : Step) : ℚ :=
  match step.name with
  | some n =>
    let s := n.toList.map Char.toLower
    if seqContains s "test".toList || seqContains s "e2e".toList then 10
    else if seqContains s "build".toList || seqContains s "compile".toList then 5
    else if seqContains s "deploy".toList || seqContains s "publish".toList then 3
    else if seqContains s "install".toList || seqContains s "setup".toList then 2
    else 1
  | none => 1

/-- Embedding of `calculateMatrixSize(matrix)`: the product of the lengths
of the array-valued entries of the matrix object. -/
def calculateMatrixSize (matrix : List (String × MatrixVal)) : ℕ :=
  matrix.foldl
    (fun size v => match v.2 with | .seq vals => size * vals.length | .scalar _ => size) 1

/-- Minutes of one job inside `estimateWorkflowDuration`: base 5, plus step
weights and a 60-minute cap when a steps array is present, then multiplied
by the matrix size when a matrix strategy is present. -/
def jobMinutes (job : Job) : ℚ :=
  let base : ℚ :=
    match job.steps with
    | some steps => min (steps.foldl (fun acc s => acc + stepWeight s) 5) 60
    | none => 5
  match job.strategy with
  | some strategy =>
    match strategy.matrix with
    | some matrix => base * (calculateMatrixSize matrix : ℚ)
    | none => base
  | none => base

/-- Embedding of `estimateWorkflowDuration(workflow)`. -/
def estimateWorkflowDuration (workflow : Workflow) : ℚ :=
  match workflow.jobs with
  | none => 0
  | some jobs => ((⌈jobs.foldl (fun total j => total + jobMinutes j.2) 0⌉ : ℤ) : ℚ)

/-- Input record of `calculateMonthlyCosts`; `parsed` may be absent, in
which case the source falls back to the record itself, which exposes no
`on` declaration. -/
structure CostWorkflow where
  name : String := ""
  parsed : Option Workflow := none
  estimatedDuration : ℚ := 0

/-- One per-workflow line of the cost breakdown. -/
structure BreakdownEntry where
  name : String
  minutesPerRun : ℚ
  runsPerMonth : ℚ
  minutesPerMonth : ℚ

/-- Budget section of the cost report. -/
structure BudgetReport where
  target : ℚ
  stretch : ℚ
  withinTarget : Bool
  withinStretch : Bool

/-- One pricing tier of the cost report; `monthlyCost` is only present on
the team tier. -/
structure TierReport where
  limit : ℚ
  overage : ℚ
  cost : ℚ
  withinLimit : Bool
  monthlyCost : Option ℚ := none

/-- Result of `calculateMonthlyCosts`. -/
structure CostReport where
  minutesPerMonth : ℚ
  minutesPerDay : ℚ
  workflowRunsPerDay : ℚ
  breakdown : List BreakdownEntry
  budgets : BudgetReport
  tiersFree : TierReport
  tiersTeam : TierReport

/-- Enriched copy of one workflow record built inside
`calculateMonthlyCosts` (the source spreads the record into a fresh
object). -/
structure EnrichedWorkflow where
  base : CostWorkflow
  runsPerMonth : ℚ
  minutesPerMonth : ℚ

/-- Embedding of `calculateMonthlyCosts(workflows, commitsPerDay, options)`. -/
def calculateMonthlyCosts (workflows : List CostWorkflow) (commitsPerDay : ℚ)
    (options : EstOptions) : CostReport :=
  let enriched : List EnrichedWorkflow := workflows.map (fun wf =>
    let runsPerMonth :=
      estimateWorkflowRunsPerMonth (wf.parsed.getD {}) commitsPerDay options
    let minutesPerMonth := ((⌈wf.estimatedDuration * runsPerMonth⌉ : ℤ) : ℚ)
    { base := wf, runsPerMonth := runsPerMonth, minutesPerMonth := minutesPerMonth })
  let totalWorkflowRunsPerMonth := enriched.foldl (fun total wf => total + wf.runsPerMonth) 0
  let minutesPerMonth := enriched.foldl (fun total wf => total + wf.minutesPerMonth) 0
  let freeOverage := max 0 (minutesPerMonth - 2000)
  let teamOverage := max 0 (minutesPerMonth - 3000)
  { minutesPerMonth := minutesPerMonth
    minutesPerDay := minutesPerMonth / 30
    workflowRunsPerDay := totalWorkflowRunsPerMonth / 30
    breakdown := enriched.map (fun wf =>
      { name := wf.base.name
        minutesPerRun := wf.base.estimatedDuration
        runsPerMonth := wf.runsPerMonth
        minutesPerMonth := wf.minutesPerMonth })
    budgets :=
      { target := 1000
        stretch := 1500
        withinTarget := decide (minutesPerMonth ≤ 1000)
        withinStretch := decide (minutesPerMonth ≤ 1500) }
    tiersFree :=
      { limit := 2000
        overage := freeOverage
        cost := freeOverage * 0.008
        withinLimit := decide (minutesPerMonth ≤ 2000) }
    tiersTeam :=
      { limit := 3000
        overage := teamOverage
        cost := teamOverage * 0.008
        withinLimit := decide (minutesPerMonth ≤ 3000)
        monthlyCost := some 4 } }

/-- One optimization recommendation. -/
structure Recommendation where
  type : String
  workflow : String
  job : Option String := none
  title : String
  description : String
  action : String
  potentialSavings : ℚ
  savingsPerRun : ℚ
  priority : String

/-- Input record of `analyzeOptimizations`: name, parsed definition and
estimated duration of one workflow. -/
structure AnalysisWorkflow where
  name : String
  parsed : Workflow
  estimatedDuration : ℚ

/-- Missing-caching detector for one job. -/
def cachingRecs (workflowName jobName : String) (job : Job) (runsPerMonth : ℚ) :
    List Recommendation :=
  match job.steps with
  | some steps =>
    let hasCaching := steps.any (fun step =>
      match step.uses with
      | some u => strIncludes u "actions/cache" || strIncludes u "actions/setup-node"
      | none => false)
    let hasInstall := steps.any (fun step =>
      match step.run with
      | some r =>
        strIncludes r "npm install" || strIncludes r "yarn install" ||
          strIncludes r "pnpm install" || strIncludes r "pip install"
      | none => false)
    if hasInstall && !hasCaching then
      [{ type := "caching"
         workflow := workflowName
         job := some jobName
         title := "Add dependency caching"
         description := "Job \"" ++ jobName ++ "\" installs dependencies but doesn\x27t cache them"
         action := "Add actions/cache before install step"
         potentialSavings := ((⌈(3 : ℚ) * runsPerMonth⌉ : ℤ) : ℚ)
         savingsPerRun := 3
         priority := "high" }]
    else []
  | none => []

/-- Oversized-matrix detector for one job. -/
def matrixRecs (workflowName jobName : String) (job : Job)
    (estimatedDuration runsPerMonth : ℚ) : List Recommendation :=
  match job.strategy with
  | some strategy =>
    match strategy.matrix with
    | some matrix =>
      let matrixSize := calculateMatrixSize matrix
      if 6 ≤ matrixSize then
        [{ type := "matrix"
           workflow := workflowName
           job := some jobName
           title := "Reduce matrix size"
           description := "Job \"" ++ jobName ++ "\" runs " ++ toString matrixSize ++ " matrix combinations"
           action := "Consider testing only LTS + latest versions (reduce to " ++
             toString ((matrixSize + 1) / 2) ++ " combinations)"
           potentialSavings := ((⌈estimatedDuration * 0.5 * runsPerMonth⌉ : ℤ) : ℚ)
           savingsPerRun := ((⌈estimatedDuration * 0.5⌉ : ℤ) : ℚ)
           priority := if 9 ≤ matrixSize then "high" else "medium" }]
      else []
    | none => []
  | none => []

/-- Scheduled monthly runs read off a workflow inside the optimizer: the
schedule estimate when a `schedule` trigger is present, else 0. -/
def scheduledRunsOf (workflow : Workflow) : ℚ :=
  let triggers := normalizeTriggers workflow.onCfg
  if triggersHas triggers "schedule" then
    estimateScheduleRunsPerMonth ((List.lookup "schedule" triggers).getD .null)
  else 0

/-- High-frequency-schedule detector for one workflow. -/
def scheduleFreqRecs (workflowName : String) (workflow : Workflow)
    (estimatedDuration : ℚ) : List Recommendation :=
  if truthyOn workflow.onCfg then
    let scheduledRuns : ℚ := scheduledRunsOf workflow
    let highFreq : List Recommendation :=
      if 20 ≤ scheduledRuns then
        let savingsPerMonth := ((⌈estimatedDuration * (scheduledRuns - 4)⌉ : ℤ) : ℚ)
        [{ type := "frequency"
           workflow := workflowName
           title := "Reduce schedule frequency"
           description := "\"" ++ workflowName ++ "\" runs about " ++ toString scheduledRuns ++ "x/month"
           action := "Change to weekly schedule (4x/month)"
           potentialSavings := savingsPerMonth
           savingsPerRun := 0
           priority := if 500 < savingsPerMonth then "high" else "medium" }]
      else []
    let midFreq : List Recommendation :=
      if 4 ≤ scheduledRuns ∧ scheduledRuns < 20 then
        let savingsPerMonth := ((⌈estimatedDuration * (scheduledRuns - 1)⌉ : ℤ) : ℚ)
        if 50 < savingsPerMonth then
          [{ type := "frequency"
             workflow := workflowName
             title := "Reduce schedule frequency"
             description := "\"" ++ workflowName ++ "\" runs about " ++ toString scheduledRuns ++ "x/month"
             action := "Change to monthly schedule (1x/month)"
             potentialSavings := savingsPerMonth
             savingsPerRun := 0
             priority := "low" }]
        else []
      else []
    highFreq ++ midFreq
  else []

/-- Truthiness of `workflow.onCfg.push || workflow.onCfg.pull_request` read
directly off the raw mapping (the path-filter detector does not normalize). -/
def pushPrTruthy (onMap : List (String × TriggerVal)) : Bool :=
  ((List.lookup "push" onMap).map truthyVal).getD false ||
    ((List.lookup "pull_request" onMap).map truthyVal).getD false

/-- Path filters carried by one trigger value: property access on anything
but a detail object yields `undefined`. -/
def eventPathFilter : Option TriggerVal → Bool
  | some (.object cfg) => cfg.paths.isSome || cfg.pathsIgnore.isSome
  | _ => false

/-- Model of the `hasPathFilter` expression of the path-filter detector. -/
def hasPathFilters (onMap : List (String × TriggerVal)) : Bool :=
  eventPathFilter (List.lookup "push" onMap) ||
    eventPathFilter (List.lookup "pull_request" onMap)

/-- Model of `typeof workflow.on === 'object'`: mappings and arrays
qualify; an absent declaration (`undefined`) and a string do not. -/
def isObjectOn : OnConfig → Bool
  | .map _ => true
  | .list _ => true
  | _ => false

/-- Truthiness of `workflow.on.push || workflow.on.pull_request`, read
directly off the raw `on` value.  On a mapping this is the truthiness of
the bound values; on an array the property access goes through the
prototype chain, so `push` resolves to the inherited (and truthy)
`Array.prototype.push` method while `pull_request` is `undefined`. -/
def onPushPrTruthy : OnConfig → Bool
  | .map m => pushPrTruthy m
  | .list _ => true
  | _ => false

/-- The detector's `hasPathFilter` expression over the raw `on` value:
only a detail object bound in a mapping can carry `paths`/`paths-ignore`;
on an array, `workflow.on.push` is the inherited push method, whose
`paths` property is `undefined`. -/
def onHasPathFilters : OnConfig → Bool
  | .map m => hasPathFilters m
  | _ => false

/-- Missing-path-filter detector for one workflow.  The surrounding
`typeof workflow.on === 'object'` check admits mappings and arrays, and
both can pass the `workflow.on.push || workflow.on.pull_request` test: an
array does so through the inherited `Array.prototype.push` method. -/
def pathFilterRecs (workflowName : String) (workflow : Workflow)
    (estimatedDuration runsPerMonth : ℚ) : List Recommendation :=
  if isObjectOn workflow.onCfg then
    if onPushPrTruthy workflow.onCfg && !onHasPathFilters workflow.onCfg &&
        !strIncludes workflowName "release" then
      let wastedRuns := runsPerMonth * 0.2
      let savingsPerMonth := ((⌈estimatedDuration * wastedRuns⌉ : ℤ) : ℚ)
      if 50 < savingsPerMonth then
        [{ type := "conditional"
           workflow := workflowName
           title := "Add path filters"
           description := "\"" ++ workflowName ++ "\" runs on all commits"
           action := "Skip CI for docs-only changes (paths-ignore: [\"**/*.md\", \"docs/**\"])"
           potentialSavings := savingsPerMonth
           savingsPerRun := 0
           priority := "medium" }]
      else []
    else []
  else []

/-- Per-job recommendations of one workflow, in job order, caching before
matrix as in the source loop. -/
def jobRecs (workflowName : String) (estimatedDuration runsPerMonth : ℚ) :
    List (String × Job) → List Recommendation
  | [] => []
  | (jobName, job) :: rest =>
    cachingRecs workflowName jobName job runsPerMonth ++
      matrixRecs workflowName jobName job estimatedDuration runsPerMonth ++
      jobRecs workflowName estimatedDuration runsPerMonth rest

/-- All recommendations of one workflow, in discovery order.  A workflow
without a `jobs` section is skipped entirely (`continue` in the source). -/
def workflowRecs (wf : AnalysisWorkflow) (commitsPerDay : ℚ) : List Recommendation :=
  let workflow := wf.parsed
  let runsPerMonth := estimateWorkflowRunsPerMonth workflow commitsPerDay {}
  match workflow.jobs with
  | none => []
  | some jobs =>
    jobRecs wf.name wf.estimatedDuration runsPerMonth jobs ++
      scheduleFreqRecs wf.name workflow wf.estimatedDuration ++
      pathFilterRecs wf.name workflow wf.estimatedDuration runsPerMonth

/-- Concatenated recommendations of all workflows before the final sort
(discovery order). -/
def rawRecommendations : List AnalysisWorkflow → ℚ → List Recommendation
  | [], _ => []
  | wf :: rest, commitsPerDay =>
    workflowRecs wf commitsPerDay ++ rawRecommendations rest commitsPerDay

/-- Stable insertion of one recommendation into a descending-by-savings
list: an element already in the list keeps its place ahead of an equal
newcomer only if it came earlier, which is arranged by `sortBySavingsDesc`
inserting later elements first. -/
def insertBySavings (r : Recommendation) : List Recommendation → List Recommendation
  | [] => [r]
  | b :: rest =>
    if b.potentialSavings ≤ r.potentialSavings then r :: b :: rest
    else b :: insertBySavings r rest

/-- Stable descending sort by `potentialSavings`, modelling
`recommendations.sort((a, b) => b.potentialSavings - a.potentialSavings)`;
`Array.prototype.sort` is stable, and a stable sort with a total comparator
is unique, so any stable implementation is extensionally the source's. -/
def sortBySavingsDesc : List Recommendation → List Recommendation
  | [] => []
  | r :: rest => insertBySavings r (sortBySavingsDesc rest)

/-- Embedding of `analyzeOptimizations(workflows, commitsPerDay)`. -/
def analyzeOptimizations (workflows : List AnalysisWorkflow) (commitsPerDay : ℚ) :
    List Recommendation :=
  sortBySavingsDesc (rawRecommendations workflows commitsPerDay)

/-- Reference per-step weight, written from the specification sentence:
classify the name case-insensitively in priority order test/e2e, then
build/compile, deploy/publish, install/setup, otherwise 1 (including
unnamed steps). -/
def refStepWeight (step : Step) : ℚ :=
  match step.name with
  | some n =>
    let s := n.toList.map Char.toLower
    if seqContains s "test".toList || seqContains s "e2e".toList then 10
    else if seqContains s "build".toList || seqContains s "compile".toList then 5
    else if seqContains s "deploy".toList || seqContains s "publish".toList then 3
    else if seqContains s "install".toList || seqContains s "setup".toList then 2
    else 1
  | none => 1

/-- Reference matrix factor, written from the specification sentence: the
product of the lengths of every sequence-valued matrix axis, non-sequence
axes contributing factor 1; a job without a matrix strategy has factor 1. -/
def refMatrixFactor (job : Job) : ℕ :=
  match job.strategy with
  | some strategy =>
    match strategy.matrix with
    | some matrix =>
      matrix.foldl
        (fun acc v => acc * (match v.2 with | .seq vals => vals.length | .scalar _ => 1)) 1
    | none => 1
  | none => 1

/-- Reference per-job minutes, written from the specification sentence:
5 base minutes plus the step weights, clamped to at most 60, then
multiplied by the matrix combination count. -/
def refJobMinutes (job : Job) : ℚ :=
  min (5 + ((job.steps.getD []).map refStepWeight).sum) 60 * (refMatrixFactor job : ℚ)

/-- Reference workflow duration, written from the specification sentence:
the ceiling of the sum of the job minutes, 0 when there are no jobs. -/
def durationRef (workflow : Workflow) : ℚ :=
  match workflow.jobs with
  | none => 0
  | some jobs => ((⌈(jobs.map (fun j => refJobMinutes j.2)).sum⌉ : ℤ) : ℚ)

/-! Helper lemmas. -/

/-- Folding addition of `f` over a list starting from `a` is `a` plus the sum
of the mapped list. -/
theorem foldl_add_eq {α : Type} (f : α → ℚ) :
    ∀ (l : List α) (a : ℚ), l.foldl (fun acc x => acc + f x) a = a + (l.map f).sum := by
  intro l
  induction l with
  | nil => intro a; simp
  | cons x xs ih => intro a; simp only [List.foldl_cons, List.map_cons, List.sum_cons, ih]; ring

/-- The schedule estimator on an entry array is the sum of the per-entry
contributions. -/
theorem estimateSchedule_array_eq_sum (l : List (Option String)) :
    estimateScheduleRunsPerMonth (.array l) =
      (l.map scheduleEntryContribution).sum := by
  cases l with
  | nil => rfl
  | cons e rest =>
    simp only [estimateScheduleRunsPerMonth, scheduleListOf, List.isEmpty_cons,
      if_neg Bool.false_ne_true, foldl_add_eq, zero_add]

/-- CLAIM C4: the schedule estimator returns 30 for an all-`*` cron entry,
4 for the weekly cron `0 2 * * 0`, and 1 for the monthly cron `0 0 1 * *`,
per the baseline-cadence rule times the minute-hour slot count. -/
theorem estimateScheduleRunsPerMonth_cron_values :
    estimateScheduleRunsPerMonth (.array [some "* * * * *"]) = 30 ∧
    estimateScheduleRunsPerMonth (.array [some "0 2 * * 0"]) = 4 ∧
    estimateScheduleRunsPerMonth (.array [some "0 0 1 * *"]) = 1 := by
  have h1 : jsSplitWs (cronCharsOf (some "* * * * *")) = [['*'],['*'],['*'],['*'],['*']] := by
    decide
  have h2 : jsSplitWs (cronCharsOf (some "0 2 * * 0")) = [['0'],['2'],['*'],['*'],['0']] := by
    decide
  have h3 : jsSplitWs (cronCharsOf (some "0 0 1 * *")) = [['0'],['0'],['1'],['*'],['*']] := by
    decide
  refine ⟨?_, ?_, ?_⟩ <;>
    simp only [estimateSchedule_array_eq_sum, List.map_cons, List.map_nil, List.sum_cons,
      List.sum_nil, scheduleEntryContribution, h1, h2, h3] <;>
    norm_num +decide [countCronFieldSlots, countCronFieldSlotsAux, cronRangeOrSingle, hasChar]

/-- CLAIM C2: the frequency estimator never returns less than one run per
month, for every workflow, nonnegative commit cadence and tuning options. -/
theorem runsPerMonth_ge_one (w : Workflow) (c : ℚ) (o : EstOptions) (_hc : 0 ≤ c) :
    1 ≤ estimateWorkflowRunsPerMonth w c o := by
  simp only [estimateWorkflowRunsPerMonth]
  exact le_max_left _ _

/-- Witness for `runsPerMonth_ge_one` at a workflow with no trigger
declaration and zero commits per day. -/
theorem runsPerMonth_ge_one_witness :
    (0 : ℚ) ≤ 0 ∧ 1 ≤ estimateWorkflowRunsPerMonth {} 0 {} :=
  ⟨le_refl 0, runsPerMonth_ge_one {} 0 {} (le_refl 0)⟩

/-- CLAIM C7: one workflow of duration 100 with no trigger declaration at
one commit per day costs 3000 minutes per month, a 1000-minute overage on
the 2000-minute free tier, and exactly 8 dollars of free-tier overage. -/
theorem calculateMonthlyCosts_overage_example :
    (calculateMonthlyCosts [{ name := "ci.yml", estimatedDuration := 100 }] 1 {}).minutesPerMonth = 3000 ∧
    (calculateMonthlyCosts [{ name := "ci.yml", estimatedDuration := 100 }] 1 {}).tiersFree.limit = 2000 ∧
    (calculateMonthlyCosts [{ name := "ci.yml", estimatedDuration := 100 }] 1 {}).tiersFree.overage = 1000 ∧
    (calculateMonthlyCosts [{ name := "ci.yml", estimatedDuration := 100 }] 1 {}).tiersFree.cost = 8 := by
  have hruns : estimateWorkflowRunsPerMonth {} 1 {} = 30 := by
    norm_num [estimateWorkflowRunsPerMonth, normalizeTriggers, triggersHas, pushIsTagOnly,
      getOrDefault]
  norm_num [calculateMonthlyCosts, hruns]

/-- CLAIM C1 counterexample: with `release` and `create` both configured
(and default tuning, zero commits per day) the estimator returns 1, not the
2 that one `releaseRunsPerMonth` per distinct type would give: the release
contribution is added once for the whole disjunction, not once per type. -/
theorem release_create_counterexample :
    estimateWorkflowRunsPerMonth
      { onCfg := .map [("release", TriggerVal.bool true), ("create", TriggerVal.bool true)] } 0 {} = 1 ∧
    estimateWorkflowRunsPerMonth
      { onCfg := .map [("release", TriggerVal.bool true), ("create", TriggerVal.bool true)] } 0 {} ≠ 2 := by
  have e1 : ("push" == "release") = false := rfl
  have e2 : ("push" == "create") = false := rfl
  have e3 : ("pull_request" == "release") = false := rfl
  have e4 : ("pull_request" == "create") = false := rfl
  have e5 : ("schedule" == "release") = false := rfl
  have e6 : ("schedule" == "create") = false := rfl
  have e7 : ("workflow_dispatch" == "release") = false := rfl
  have e8 : ("workflow_dispatch" == "create") = false := rfl
  have e9 : ("release" == "release") = true := rfl
  have e10 : ("create" == "release") = false := rfl
  have e11 : ("create" == "create") = true := rfl
  have h : estimateWorkflowRunsPerMonth
      { onCfg := .map [("release", TriggerVal.bool true), ("create", TriggerVal.bool true)] } 0 {} = 1 := by
    simp only [estimateWorkflowRunsPerMonth, normalizeTriggers, triggersHas, pushIsTagOnly,
      getOrDefault, List.lookup, e1, e2, e3, e4, e5, e6, e7, e8, e9, e10, e11]
    norm_num
  exact ⟨h, by rw [h]; norm_num⟩

/-- CLAIM C1 amended: when several of tag-only push, `release` and `create`
are present together, `releaseRunsPerMonth` is added once in total, so the
estimate equals the one for `release` alone — for every commit cadence and
every tuning options record. -/
theorem release_create_single_contribution (c : ℚ) (o : EstOptions) :
    estimateWorkflowRunsPerMonth
        { onCfg := .map [("release", TriggerVal.bool true), ("create", TriggerVal.bool true)] } c o =
      estimateWorkflowRunsPerMonth { onCfg := .map [("release", TriggerVal.bool true)] } c o ∧
    estimateWorkflowRunsPerMonth
        { onCfg := .map [("push", TriggerVal.object { tags := some ["v*"] }),
            ("release", TriggerVal.bool true), ("create", TriggerVal.bool true)] } c o =
      estimateWorkflowRunsPerMonth { onCfg := .map [("release", TriggerVal.bool true)] } c o :=
  ⟨rfl, rfl⟩

/-- CLAIM C6: a workflow whose only trigger is a push with a nonempty tag
list and no branch patterns is estimated at exactly one run per month, for
every commit cadence (default tuning), and independently of any path
filters on the push config. -/
theorem tag_only_push_runs_once (commitsPerDay : ℚ) (t : String) (ts : List String)
    (p pignore : Option (List String)) :
    estimateWorkflowRunsPerMonth
      { onCfg := .map [("push", TriggerVal.object
          { tags := some (t :: ts), paths := p, pathsIgnore := pignore })] }
      commitsPerDay {} = 1 := by
  have e0 : ("push" == "push") = true := rfl
  have e1 : ("pull_request" == "push") = false := rfl
  have e2 : ("schedule" == "push") = false := rfl
  have e3 : ("workflow_dispatch" == "push") = false := rfl
  have e4 : ("release" == "push") = false := rfl
  have e5 : ("create" == "push") = false := rfl
  have etags : decide (0 < (t :: ts).length) = true := by simp
  simp only [estimateWorkflowRunsPerMonth, normalizeTriggers, triggersHas, pushIsTagOnly,
    getOrDefault, List.lookup, e0, e1, e2, e3, e4, e5, etags]
  norm_num

/-- Both matrix-size folds agree: multiplying by the length of each
sequence axis in place equals multiplying by 1 for scalar axes. -/
theorem matrixFold_eq :
    ∀ (m : List (String × MatrixVal)) (a : ℕ),
      m.foldl (fun size v => match v.2 with | .seq vals => size * vals.length | .scalar _ => size) a =
        m.foldl (fun acc v => acc * (match v.2 with | .seq vals => vals.length | .scalar _ => 1)) a := by
  intro m
  induction m with
  | nil => intro a; rfl
  | cons x rest ih =>
    intro a
    cases hx : x.2 with
    | seq vals => simp only [List.foldl_cons, hx, ih]
    | scalar v => simp only [List.foldl_cons, hx, ih, Nat.mul_one]

/-- The per-job minutes of the source loop agree with the specification's
reference formula. -/
theorem jobMinutes_eq_ref (j : Job) : jobMinutes j = refJobMinutes j := by
  have hw : refStepWeight = stepWeight := funext fun _ => rfl
  unfold jobMinutes refJobMinutes
  have hbase :
      (match j.steps with
        | some steps => min (steps.foldl (fun acc s => acc + stepWeight s) 5) 60
        | none => (5 : ℚ)) = min (5 + ((j.steps.getD []).map refStepWeight).sum) 60 := by
    cases j.steps with
    | none => norm_num
    | some steps => simp [foldl_add_eq, hw]
  rw [hbase]
  unfold refMatrixFactor
  rcases hst : j.strategy with _ | st <;> simp only [hst]
  · simp
  · rcases hm : st.matrix with _ | m <;> simp only [hm]
    · simp
    · simp only [calculateMatrixSize, matrixFold_eq]

/-- Folding the per-job minutes starting from `a` equals `a` plus the sum of
the reference per-job minutes. -/
theorem foldl_jobMinutes :
    ∀ (l : List (String × Job)) (a : ℚ),
      l.foldl (fun total j => total + jobMinutes j.2) a =
        a + (l.map (fun j => refJobMinutes j.2)).sum := by
  intro l
  induction l with
  | nil => intro a; simp
  | cons x xs ih =>
    intro a
    rw [List.foldl_cons, ih, jobMinutes_eq_ref]
    simp only [List.map_cons, List.sum_cons]
    ring

/-- CLAIM C3: the duration estimator equals the reference computation (per
job 5 base minutes plus keyword step weights, clamp at 60, multiply by the
matrix combination count; ceiling of the job sum; no jobs gives 0), and two
sequence axes of sizes 3 and 2 give a matrix factor of 6. -/
theorem estimateWorkflowDuration_eq_ref :
    (∀ w : Workflow, estimateWorkflowDuration w = durationRef w) ∧
    (∀ (k1 k2 : String) (v1 v2 : List String), v1.length = 3 → v2.length = 2 →
      calculateMatrixSize [(k1, MatrixVal.seq v1), (k2, MatrixVal.seq v2)] = 6) := by
  constructor
  · intro w
    unfold estimateWorkflowDuration durationRef
    cases w.jobs with
    | none => rfl
    | some jobs => simp only [foldl_jobMinutes, zero_add]
  · intro k1 k2 v1 v2 h1 h2
    simp only [calculateMatrixSize, List.foldl_cons, List.foldl_nil, h1, h2]

/-- Witness for `estimateWorkflowDuration_eq_ref`: a concrete one-job
workflow and a concrete 3-by-2 matrix. -/
theorem estimateWorkflowDuration_eq_ref_witness :
    estimateWorkflowDuration
        { jobs := some [("build", { steps := some [{ name := some "Run tests" }] })] } =
      durationRef
        { jobs := some [("build", { steps := some [{ name := some "Run tests" }] })] } ∧
    calculateMatrixSize
        [("node", MatrixVal.seq ["18", "20", "22"]), ("os", MatrixVal.seq ["linux", "mac"])] = 6 :=
  ⟨estimateWorkflowDuration_eq_ref.1 _,
    estimateWorkflowDuration_eq_ref.2 "node" "os" _ _ rfl rfl⟩

/-- CLAIM C5: cron estimation never fails.  A schedule entry whose cron
string does not split into exactly 5 whitespace-separated fields adds the
fixed fallback 4 to the total, and a `base/step` cron field whose step is
non-numeric or non-positive counts as 1 slot (no infinity, no division by
zero). -/
theorem cron_estimation_fallbacks :
    (∀ (es1 es2 : List (Option String)) (e : Option String),
        (jsSplitWs (cronCharsOf e)).length ≠ 5 →
        estimateScheduleRunsPerMonth (.array (es1 ++ e :: es2)) =
          estimateScheduleRunsPerMonth (.array (es1 ++ es2)) + 4) ∧
    (∀ (field : List Char) (maxSlots : ℚ),
        hasChar '/' field = true → hasChar ',' field = false →
        (∀ q : ℚ, jsNumberChars ((splitOnChar '/' field).getD 1 []) = some q → q ≤ 0) →
        countCronFieldSlots field maxSlots = 1) := by
  constructor
  · intro es1 es2 e he
    have hc : scheduleEntryContribution e = 4 := by
      simp only [scheduleEntryContribution]
      rw [if_pos he]
    simp only [estimateSchedule_array_eq_sum, List.map_append, List.sum_append, List.map_cons,
      List.sum_cons, hc]
    ring
  · intro field maxSlots hslash hcomma hstep
    have hne : field.isEmpty = false := by
      cases field with
      | nil => exact absurd hslash (by decide)
      | cons a l => rfl
    have hstar : (field == ['*']) = false := by
      cases hb : field == ['*'] with
      | false => rfl
      | true =>
        have : field = ['*'] := by
          exact eq_of_beq hb
        rw [this] at hslash
        exact absurd hslash (by decide)
    unfold countCronFieldSlots
    rw [countCronFieldSlotsAux]
    simp only [hne, hstar, hcomma, hslash, Bool.or_self, if_false, if_true, Bool.false_eq_true,
      if_neg, ite_false, ite_true]
    rcases hn : jsNumberChars ((splitOnChar '/' field).getD 1 []) with _ | q
    · simp only [hn]
    · simp only [hn]
      rw [if_pos (hstep q hn)]

/-- Witness for `cron_estimation_fallbacks`: an entry without a cron string
adds 4, and a slash field with a non-numeric step counts as one slot. -/
theorem cron_estimation_fallbacks_witness :
    estimateScheduleRunsPerMonth (.array [none]) =
      estimateScheduleRunsPerMonth (.array []) + 4 ∧
    countCronFieldSlots ['*', '/', 'x'] 60 = 1 := by
  constructor
  · exact cron_estimation_fallbacks.1 [] [] none (by decide)
  · refine cron_estimation_fallbacks.2 ['*', '/', 'x'] 60 (by decide) (by decide) ?_
    intro q hq
    have h0 : (splitOnChar '/' ['*', '/', 'x']).getD 1 [] = ['x'] := by decide
    rw [h0] at hq
    have h1 : jsNumberChars ['x'] = none := by decide
    rw [h1] at hq
    exact absurd hq (by simp)

/-- Membership in an insertion is membership in the head or the tail. -/
theorem mem_insertBySavings (a r : Recommendation) (l : List Recommendation) :
    a ∈ insertBySavings r l ↔ a = r ∨ a ∈ l := by
  induction l with
  | nil => simp [insertBySavings]
  | cons b rest ih =>
    simp only [insertBySavings]
    split
    · simp [List.mem_cons]
    · simp only [List.mem_cons, ih]
      tauto

/-- Inserting into a descending-by-savings list keeps it descending. -/
theorem pairwise_insertBySavings (r : Recommendation) (l : List Recommendation)
    (h : l.Pairwise (fun a b => b.potentialSavings ≤ a.potentialSavings)) :
    (insertBySavings r l).Pairwise (fun a b => b.potentialSavings ≤ a.potentialSavings) := by
  induction l with
  | nil => simp [insertBySavings]
  | cons b rest ih =>
    rcases List.pairwise_cons.mp h with ⟨hb, hrest⟩
    simp only [insertBySavings]
    split
    · rename_i hle
      refine List.pairwise_cons.mpr ⟨?_, h⟩
      intro x hx
      rcases List.mem_cons.mp hx with rfl | hx'
      · exact hle
      · exact le_trans (hb x hx') hle
    · rename_i hgt
      refine List.pairwise_cons.mpr ⟨?_, ih hrest⟩
      intro x hx
      rcases (mem_insertBySavings x r rest).mp hx with rfl | hx'
      · exact le_of_lt (not_le.mp hgt)
      · exact hb x hx'

/-- The sort output is descending by potential savings. -/
theorem sorted_sortBySavingsDesc (l : List Recommendation) :
    (sortBySavingsDesc l).Pairwise (fun a b => b.potentialSavings ≤ a.potentialSavings) := by
  induction l with
  | nil => simp [sortBySavingsDesc]
  | cons r rest ih => exact pairwise_insertBySavings r _ ih

/-- Insertion is stable: restricted to any one savings value, the result
reads `r` first and then the old list, because `r` is placed before the
first element that does not strictly exceed it. -/
theorem filter_insertBySavings (v : ℚ) (r : Recommendation) (l : List Recommendation) :
    (insertBySavings r l).filter (fun x => decide (x.potentialSavings = v)) =
      (r :: l).filter (fun x => decide (x.potentialSavings = v)) := by
  induction l with
  | nil => rfl
  | cons b rest ih =>
    simp only [insertBySavings]
    split
    · rfl
    · rename_i hgt
      by_cases hr : r.potentialSavings = v
      · by_cases hbv : b.potentialSavings = v
        · exact absurd (hbv ▸ hr ▸ le_refl v) hgt
        · simp [List.filter_cons, hr, hbv, ih]
      · by_cases hbv : b.potentialSavings = v
        · simp [List.filter_cons, hr, hbv, ih]
        · simp [List.filter_cons, hr, hbv, ih]

/-- The sort is stable: restricted to any one savings value it is the
identity on the input order. -/
theorem filter_sortBySavingsDesc (v : ℚ) (l : List Recommendation) :
    (sortBySavingsDesc l).filter (fun x => decide (x.potentialSavings = v)) =
      l.filter (fun x => decide (x.potentialSavings = v)) := by
  induction l with
  | nil => rfl
  | cons r rest ih =>
    simp only [sortBySavingsDesc, filter_insertBySavings, List.filter_cons, ih]

/-- CLAIM C9: for every input collection and commit cadence, the
recommendation list is sorted descending by `potentialSavings`, and within
each savings value the recommendations appear in discovery order (the order
`rawRecommendations` produced them). -/
theorem recommendations_sorted_stable (wfs : List AnalysisWorkflow) (c : ℚ) :
    (analyzeOptimizations wfs c).Pairwise
        (fun a b => b.potentialSavings ≤ a.potentialSavings) ∧
    ∀ v : ℚ,
      (analyzeOptimizations wfs c).filter (fun r => decide (r.potentialSavings = v)) =
        (rawRecommendations wfs c).filter (fun r => decide (r.potentialSavings = v)) :=
  ⟨sorted_sortBySavingsDesc _, fun v => filter_sortBySavingsDesc v _⟩

/-- Sorting does not change membership. -/
theorem mem_sortBySavingsDesc (a : Recommendation) (l : List Recommendation) :
    a ∈ sortBySavingsDesc l ↔ a ∈ l := by
  induction l with
  | nil => simp [sortBySavingsDesc]
  | cons r rest ih =>
    simp only [sortBySavingsDesc, mem_insertBySavings, ih, List.mem_cons]

/-- Every caching recommendation has type `caching`. -/
theorem type_of_mem_cachingRecs {r : Recommendation} {wn jn : String} {job : Job}
    {runs : ℚ} (h : r ∈ cachingRecs wn jn job runs) : r.type = "caching" := by
  unfold cachingRecs at h
  split at h
  · dsimp only at h
    split at h
    · rw [List.mem_singleton] at h
      subst h
      rfl
    · exact absurd h (List.not_mem_nil r)
  · exact absurd h (List.not_mem_nil r)

/-- Every matrix recommendation has type `matrix`. -/
theorem type_of_mem_matrixRecs {r : Recommendation} {wn jn : String} {job : Job}
    {dur runs : ℚ} (h : r ∈ matrixRecs wn jn job dur runs) : r.type = "matrix" := by
  unfold matrixRecs at h
  split at h
  · split at h
    · dsimp only at h
      split at h
      · rw [List.mem_singleton] at h
        subst h
        rfl
      · exact absurd h (List.not_mem_nil r)
    · exact absurd h (List.not_mem_nil r)
  · exact absurd h (List.not_mem_nil r)

/-- Every per-job recommendation has type `caching` or `matrix`. -/
theorem type_of_mem_jobRecs {r : Recommendation} {wn : String} {dur runs : ℚ} :
    ∀ {js : List (String × Job)}, r ∈ jobRecs wn dur runs js →
      r.type = "caching" ∨ r.type = "matrix" := by
  intro js
  induction js with
  | nil =>
    intro h
    simp only [jobRecs] at h
    exact absurd h (List.not_mem_nil r)
  | cons p rest ih =>
    intro h
    obtain ⟨jn2, j2⟩ := p
    simp only [jobRecs] at h
    rw [List.mem_append] at h
    rcases h with h | h
    · rw [List.mem_append] at h
      rcases h with h | h
      · exact Or.inl (type_of_mem_cachingRecs h)
      · exact Or.inr (type_of_mem_matrixRecs h)
    · exact ih h

/-- Every schedule-frequency recommendation has type `frequency`. -/
theorem type_of_mem_scheduleFreqRecs {r : Recommendation} {wn : String} {w : Workflow}
    {dur : ℚ} (h : r ∈ scheduleFreqRecs wn w dur) : r.type = "frequency" := by
  unfold scheduleFreqRecs at h
  split at h
  · dsimp only at h
    rw [List.mem_append] at h
    rcases h with h | h
    · split at h
      · rw [List.mem_singleton] at h
        subst h
        rfl
      · exact absurd h (List.not_mem_nil r)
    · split at h
      · split at h
        · rw [List.mem_singleton] at h
          subst h
          rfl
        · exact absurd h (List.not_mem_nil r)
      · exact absurd h (List.not_mem_nil r)
  · exact absurd h (List.not_mem_nil r)

/-- A truthy `workflow.on.push || workflow.on.pull_request` implies the
`typeof workflow.on === 'object'` guard holds. -/
theorem onPushPrTruthy_isObject (oc : OnConfig) (h : onPushPrTruthy oc = true) :
    isObjectOn oc = true := by
  cases oc with
  | map m => rfl
  | list l => rfl
  | absent => simp [onPushPrTruthy] at h
  | str s => simp [onPushPrTruthy] at h

/-- CLAIM C8 amended: for a workflow that declares a jobs section and an
object-typed trigger declaration (an event-config mapping or an array of
event names) on which `push` or `pull_request` is truthy (for an array,
the inherited `Array.prototype.push` makes `push` truthy), with no path
filters and a name not containing `release`, the optimizer emits a
`conditional` recommendation with savings
`ceil(duration * runsPerMonth * 0.2)` and priority medium exactly when
that savings exceeds 50; and no `conditional` recommendation is emitted
when path filters are present, the name contains `release`, or the
savings is at most 50. -/
theorem path_filter_rec_amended (nm : String) (oc : OnConfig)
    (jobs : List (String × Job)) (dur c : ℚ) :
    (onPushPrTruthy oc = true → onHasPathFilters oc = false →
      strIncludes nm "release" = false →
      (50 < ((⌈dur * (estimateWorkflowRunsPerMonth
            { onCfg := oc, jobs := some jobs } c {} * 0.2)⌉ : ℤ) : ℚ) ↔
        ∃ r ∈ analyzeOptimizations
            [{ name := nm, parsed := { onCfg := oc, jobs := some jobs },
               estimatedDuration := dur }] c,
          r.type = "conditional" ∧
          r.potentialSavings = ((⌈dur * (estimateWorkflowRunsPerMonth
              { onCfg := oc, jobs := some jobs } c {} * 0.2)⌉ : ℤ) : ℚ) ∧
          r.priority = "medium")) ∧
    ((onHasPathFilters oc = true ∨ strIncludes nm "release" = true ∨
        ((⌈dur * (estimateWorkflowRunsPerMonth
            { onCfg := oc, jobs := some jobs } c {} * 0.2)⌉ : ℤ) : ℚ) ≤ 50) →
      ∀ r ∈ analyzeOptimizations
          [{ name := nm, parsed := { onCfg := oc, jobs := some jobs },
             estimatedDuration := dur }] c,
        r.type ≠ "conditional") := by
  have hmemiff : ∀ r : Recommendation,
      r ∈ analyzeOptimizations
          [{ name := nm, parsed := { onCfg := oc, jobs := some jobs },
             estimatedDuration := dur }] c ↔
        r ∈ jobRecs nm dur
              (estimateWorkflowRunsPerMonth { onCfg := oc, jobs := some jobs } c {}) jobs ++
            scheduleFreqRecs nm { onCfg := oc, jobs := some jobs } dur ++
            pathFilterRecs nm { onCfg := oc, jobs := some jobs } dur
              (estimateWorkflowRunsPerMonth { onCfg := oc, jobs := some jobs } c {}) := by
    intro r
    rw [analyzeOptimizations, mem_sortBySavingsDesc]
    simp only [rawRecommendations, List.append_nil, workflowRecs]
  constructor
  · intro hp hf hr
    have hobj : isObjectOn oc = true := onPushPrTruthy_isObject oc hp
    have hpath : pathFilterRecs nm { onCfg := oc, jobs := some jobs } dur
        (estimateWorkflowRunsPerMonth { onCfg := oc, jobs := some jobs } c {}) =
        if 50 < ((⌈dur * (estimateWorkflowRunsPerMonth
            { onCfg := oc, jobs := some jobs } c {} * 0.2)⌉ : ℤ) : ℚ) then
          [{ type := "conditional"
             workflow := nm
             title := "Add path filters"
             description := "\"" ++ nm ++ "\" runs on all commits"
             action := "Skip CI for docs-only changes (paths-ignore: [\"**/*.md\", \"docs/**\"])"
             potentialSavings := ((⌈dur * (estimateWorkflowRunsPerMonth
                 { onCfg := oc, jobs := some jobs } c {} * 0.2)⌉ : ℤ) : ℚ)
             savingsPerRun := 0
             priority := "medium" }]
        else [] := by
      simp only [pathFilterRecs, hobj, hp, hf, hr, Bool.not_false, Bool.and_true, Bool.true_and,
        if_true]
    constructor
    · intro hgt
      refine ⟨{ type := "conditional"
                workflow := nm
                title := "Add path filters"
                description := "\"" ++ nm ++ "\" runs on all commits"
                action := "Skip CI for docs-only changes (paths-ignore: [\"**/*.md\", \"docs/**\"])"
                potentialSavings := ((⌈dur * (estimateWorkflowRunsPerMonth
                    { onCfg := oc, jobs := some jobs } c {} * 0.2)⌉ : ℤ) : ℚ)
                savingsPerRun := 0
                priority := "medium" },
        (hmemiff _).mpr (List.mem_append.mpr (Or.inr ?_)), rfl, rfl, rfl⟩
      rw [hpath, if_pos hgt]
      exact List.mem_singleton.mpr rfl
    · rintro ⟨r, hmem, htype, hsav, hprio⟩
      rw [hmemiff, List.mem_append] at hmem
      rcases hmem with hmem | hmem
      · rw [List.mem_append] at hmem
        rcases hmem with hmem | hmem
        · rcases type_of_mem_jobRecs hmem with h' | h' <;> rw [htype] at h' <;>
            exact absurd h' (by decide)
        · have h' := type_of_mem_scheduleFreqRecs hmem
          rw [htype] at h'
          exact absurd h' (by decide)
      · by_contra hng
        rw [hpath, if_neg hng] at hmem
        exact absurd hmem (List.not_mem_nil r)
  · intro hdisj r hmem htype
    rw [hmemiff, List.mem_append] at hmem
    rcases hmem with hmem | hmem
    · rw [List.mem_append] at hmem
      rcases hmem with hmem | hmem
      · rcases type_of_mem_jobRecs hmem with h' | h' <;> rw [htype] at h' <;>
          exact absurd h' (by decide)
      · have h' := type_of_mem_scheduleFreqRecs hmem
        rw [htype] at h'
        exact absurd h' (by decide)
    · have hempty : pathFilterRecs nm { onCfg := oc, jobs := some jobs } dur
          (estimateWorkflowRunsPerMonth { onCfg := oc, jobs := some jobs } c {}) = [] := by
        rcases hdisj with hfil | hrel | hle
        · simp [pathFilterRecs, hfil]
        · simp [pathFilterRecs, hrel]
        · simp only [pathFilterRecs]
          split
          · split
            · rw [if_neg (not_lt.mpr hle)]
            · rfl
          · rfl
      rw [hempty] at hmem
      exact absurd hmem (List.not_mem_nil r)


/-- With a single plain push trigger and one commit per day the estimator
gives 30 runs per month, whatever the jobs section. -/
theorem est_push_true30 (j : Option (List (String × Job))) :
    estimateWorkflowRunsPerMonth
      { onCfg := .map [("push", TriggerVal.bool true)], jobs := j } 1 {} = 30 := by
  have a1 : triggersHas (normalizeTriggers
      (OnConfig.map [("push", TriggerVal.bool true)])) "push" = true := by decide
  have a2 : triggersHas (normalizeTriggers
      (OnConfig.map [("push", TriggerVal.bool true)])) "pull_request" = false := by decide
  have a3 : triggersHas (normalizeTriggers
      (OnConfig.map [("push", TriggerVal.bool true)])) "schedule" = false := by decide
  have a4 : triggersHas (normalizeTriggers
      (OnConfig.map [("push", TriggerVal.bool true)])) "workflow_dispatch" = false := by decide
  have a5 : triggersHas (normalizeTriggers
      (OnConfig.map [("push", TriggerVal.bool true)])) "release" = false := by decide
  have a6 : triggersHas (normalizeTriggers
      (OnConfig.map [("push", TriggerVal.bool true)])) "create" = false := by decide
  have a7 : pushIsTagOnly (normalizeTriggers
      (OnConfig.map [("push", TriggerVal.bool true)])) = false := by decide
  simp only [estimateWorkflowRunsPerMonth, a1, a2, a3, a4, a5, a6, a7, getOrDefault]
  norm_num

/-- With a bare `on: push` string trigger and one commit per day the
estimator gives 30 runs per month. -/
theorem est_str_push30 (j : Option (List (String × Job))) :
    estimateWorkflowRunsPerMonth { onCfg := .str "push", jobs := j } 1 {} = 30 := by
  have a1 : triggersHas (normalizeTriggers (OnConfig.str "push")) "push" = true := by decide
  have a2 : triggersHas (normalizeTriggers (OnConfig.str "push")) "pull_request" = false := by
    decide
  have a3 : triggersHas (normalizeTriggers (OnConfig.str "push")) "schedule" = false := by decide
  have a4 : triggersHas (normalizeTriggers (OnConfig.str "push")) "workflow_dispatch" = false := by
    decide
  have a5 : triggersHas (normalizeTriggers (OnConfig.str "push")) "release" = false := by decide
  have a6 : triggersHas (normalizeTriggers (OnConfig.str "push")) "create" = false := by decide
  have a7 : pushIsTagOnly (normalizeTriggers (OnConfig.str "push")) = false := by decide
  simp only [estimateWorkflowRunsPerMonth, a1, a2, a3, a4, a5, a6, a7, getOrDefault]
  norm_num

/-- CLAIM C8 counterexample: two workflows with push triggers, no path
filters, names not containing `release`, and savings well above 50 — one
without a `jobs` section, one whose `on` is the plain string `push` — get
no recommendation at all: the optimizer skips workflows without jobs and
its path-filter detector only reads map-shaped trigger declarations. -/
theorem path_filter_rec_counterexample :
    analyzeOptimizations
        [{ name := "ci", parsed := { onCfg := .map [("push", TriggerVal.bool true)] },
           estimatedDuration := 100 },
         { name := "ci2", parsed := { onCfg := .str "push", jobs := some [] },
           estimatedDuration := 100 }] 1 = [] ∧
    50 < ((⌈(100 : ℚ) * (estimateWorkflowRunsPerMonth
        { onCfg := .map [("push", TriggerVal.bool true)] } 1 {} * 0.2)⌉ : ℤ) : ℚ) ∧
    50 < ((⌈(100 : ℚ) * (estimateWorkflowRunsPerMonth
        { onCfg := .str "push", jobs := some [] } 1 {} * 0.2)⌉ : ℤ) : ℚ) := by
  refine ⟨?_, ?_, ?_⟩
  · have t1 : truthyOn (OnConfig.str "push") = true := by decide
    have t2 : scheduledRunsOf { onCfg := OnConfig.str "push", jobs := some [] } = 0 := by decide
    have hs2 : scheduleFreqRecs "ci2" { onCfg := OnConfig.str "push", jobs := some [] } 100 = [] := by
      simp only [scheduleFreqRecs, t1, t2]
      norm_num
    have hw1 : workflowRecs
        { name := "ci", parsed := { onCfg := .map [("push", TriggerVal.bool true)] },
          estimatedDuration := 100 } 1 = [] := rfl
    have hw2 : workflowRecs
        { name := "ci2", parsed := { onCfg := .str "push", jobs := some [] },
          estimatedDuration := 100 } 1 = [] := by
      simp only [workflowRecs, jobRecs, hs2]
      simp [pathFilterRecs, isObjectOn]
    simp [analyzeOptimizations, rawRecommendations, hw1, hw2, sortBySavingsDesc]
  · rw [est_push_true30 none]
    norm_num
  · rw [est_str_push30 (some [])]
    norm_num

/-- With a single-element array trigger declaration `on: [push]` and one
commit per day the estimator gives 30 runs per month. -/
theorem est_list_push30 (j : Option (List (String × Job))) :
    estimateWorkflowRunsPerMonth { onCfg := .list ["push"], jobs := j } 1 {} = 30 := by
  have a1 : triggersHas (normalizeTriggers (OnConfig.list ["push"])) "push" = true := by decide
  have a2 : triggersHas (normalizeTriggers (OnConfig.list ["push"])) "pull_request" = false := by
    decide
  have a3 : triggersHas (normalizeTriggers (OnConfig.list ["push"])) "schedule" = false := by
    decide
  have a4 : triggersHas (normalizeTriggers (OnConfig.list ["push"])) "workflow_dispatch" = false := by
    decide
  have a5 : triggersHas (normalizeTriggers (OnConfig.list ["push"])) "release" = false := by decide
  have a6 : triggersHas (normalizeTriggers (OnConfig.list ["push"])) "create" = false := by decide
  have a7 : pushIsTagOnly (normalizeTriggers (OnConfig.list ["push"])) = false := by decide
  simp only [estimateWorkflowRunsPerMonth, a1, a2, a3, a4, a5, a6, a7, getOrDefault]
  norm_num

/-- Witness for `path_filter_rec_amended`: a concrete push workflow with an
empty jobs map, duration 100 and one commit per day gets the `conditional`
recommendation, both for a map-shaped and for an array-shaped trigger
declaration. -/
theorem path_filter_rec_amended_witness :
    (∃ r ∈ analyzeOptimizations
        [{ name := "ci",
           parsed := { onCfg := .map [("push", TriggerVal.bool true)], jobs := some [] },
           estimatedDuration := 100 }] 1,
      r.type = "conditional" ∧
      r.potentialSavings = ((⌈(100 : ℚ) * (estimateWorkflowRunsPerMonth
          { onCfg := .map [("push", TriggerVal.bool true)], jobs := some [] } 1 {} * 0.2)⌉ : ℤ) : ℚ) ∧
      r.priority = "medium") ∧
    (∃ r ∈ analyzeOptimizations
        [{ name := "ci2",
           parsed := { onCfg := .list ["push"], jobs := some [] },
           estimatedDuration := 100 }] 1,
      r.type = "conditional" ∧
      r.potentialSavings = ((⌈(100 : ℚ) * (estimateWorkflowRunsPerMonth
          { onCfg := .list ["push"], jobs := some [] } 1 {} * 0.2)⌉ : ℤ) : ℚ) ∧
      r.priority = "medium") := by
  constructor
  · refine ((path_filter_rec_amended "ci" (.map [("push", TriggerVal.bool true)]) [] 100 1).1
      (by decide) (by decide) (by decide)).mp ?_
    rw [est_push_true30 (some [])]
    norm_num
  · refine ((path_filter_rec_amended "ci2" (.list ["push"]) [] 100 1).1
      (by decide) (by decide) (by decide)).mp ?_
    rw [est_list_push30 (some [])]
    norm_num

end QaArchitect
